import Mathlib

/-!
Verification of the `blitz-frost/webrtc` Signaler negotiation state machine.

This file gives a shallow embedding of the coordination core found in the
repository's non-wasm source (the `Signaler` type and its methods), together
with theorems settling the specification claims about it.

Modelling conventions:
* `Candidate` is a string, as in the source (`type Candidate string`).
* Go errors are modelled by the inductive `Err`; `Err.simple m` corresponds to
  `errors.Simple(m)` of the external `blitz-frost/errors` collaborator, whose
  `Error()` method returns the message it was built from.  `Err.wrapped` models
  `errors.Message(tag, cause)` followed by `.Link(link)` (the exact rendered
  message of a wrapped error is not relied upon by any theorem).
* Calls into the external peer connection (`pion/webrtc`) and into the remote
  peer (`SignalerSet`) are resolved by explicit oracle records: each such call
  site reads the result the environment would have produced.
* Goroutine interleavings are resolved by explicit schedules: the candidate
  consumer loop of `candidateProcess` is driven by a schedule listing, for each
  loop iteration, how many gathering-callback events arrive before the loop
  body's critical section runs.  Executions whose schedule is too short to let
  the loop terminate are mapped to `none`.
* Channels are identified by natural numbers; a value sent on a channel is
  recorded as a delivery pair (channel id, value) in program order.
-/

namespace BlitzWebrtc

/-- Channel identifiers for the `chan error` result channels. -/
abbrev ChanId := Nat

/-- Model of Go `error` values as produced by the `blitz-frost/errors`
collaborator: `simple` is `errors.Simple(msg)`, `wrapped` is
`errors.Message(tag, cause)` with one linked error. -/
inductive Err where
  | simple (msg : String)
  | wrapped (tag : String) (cause : Err) (link : Err)
deriving DecidableEq, Repr

/-- The `Error()` method: `errors.Simple(m).Error() = m`; a wrapped error
renders its tag and cause. -/
def Err.error : Err → String
  | .simple m => m
  | .wrapped t c _ => t ++ ": " ++ c.error

/-- Source constant `conflictMessage = "conflict"`: the error message returned
when a negotiation conflict is encountered. -/
def conflictMessage : String := "conflict"

/-- The three `signalerState` values of the source. -/
inductive SignalerState where
  | idle
  | offering
  | answering
deriving DecidableEq, Repr

/-- Wrapper `SessionDescription`: SDP type (an integer in pion) and payload.
The Go zero value `SessionDescription{}` is `⟨0, ""⟩`. -/
structure SessionDescription where
  type : Nat
  sdp : String
deriving DecidableEq, Repr

/-- The Go zero value `SessionDescription{}`. -/
def SessionDescription.zero : SessionDescription := ⟨0, ""⟩

/-- Source type `Candidate` is a string; the empty string is the
end-of-gathering sentinel. -/
abbrev Candidate := String

/-- Collaborator type `webrtc.ICECandidateInit` of pion (pointer fields
modelled as options). -/
structure ICECandidateInit where
  candidate : String
  sdpMid : Option String
  sdpMLineIndex : Option Nat
  usernameFragment : Option String
deriving DecidableEq, Repr

/-- Method `Candidate.Convert`: builds an `ICECandidateInit` carrying the
candidate string, with `SDPMid = new(string)` and `SDPMLineIndex = new(uint16)`
(pointers to zero values). -/
def Candidate.convert (x : Candidate) : ICECandidateInit :=
  { candidate := x
    sdpMid := some ""
    sdpMLineIndex := some 0
    usernameFragment := none }

/-- Function `CandidateOf` reads the candidate payload out of a gathered ICE
candidate; its effect on the payload string is the identity
(`webrtc.ICECandidate.ToJSON().Candidate` applied to a candidate whose payload
is `s` yields `s`). -/
def CandidateOf (s : String) : Candidate := s

/-- Mutable coordination state of a `Signaler` (the fields guarded by `mux`,
with channels represented by ids and external handles omitted). -/
structure SigState where
  priority : Bool
  state : SignalerState
  candidates : List Candidate
  candidateWant : Bool
  waitPending : List ChanId
  waitSimple : List ChanId
deriving DecidableEq, Repr

/-! ## The candidate accumulator subsystem

The fields `candidates` and `candidateWant` of a `Signaler` are mutated in
exactly two mutex-protected critical sections:

* `candidateHandle` (the `OnICECandidate` gathering callback): if a consumer is
  waiting (`candidateWant`), the new candidate is handed over on
  `candidateChan` and the flag is cleared; otherwise it is appended to
  `candidates`.
* the head of the `candidateProcess` loop body: if `candidates` is non-empty
  the whole buffer is stolen, otherwise `candidateWant` is set.

We model these two critical sections as events of a step function and prove
invariants over all reachable states. -/

/-- The candidate-accumulator projection of a `Signaler`'s state. -/
structure CandSub where
  candidates : List Candidate
  candidateWant : Bool
deriving DecidableEq, Repr

/-- The two mutex-protected critical sections that touch the accumulator. -/
inductive CandEvent where
  | handle (c : Candidate)
  | probe
deriving DecidableEq, Repr

/-- One critical section.  Besides the successor state, returns the candidate
handed directly to the waiting consumer (for `handle`) and the batch stolen
from the buffer (for `probe`). -/
def candStep (s : CandSub) : CandEvent → CandSub × Option Candidate × List Candidate
  | .handle c =>
      if s.candidateWant then
        ({ s with candidateWant := false }, some c, [])
      else
        ({ s with candidates := s.candidates ++ [c] }, none, [])
  | .probe =>
      if s.candidates.isEmpty then
        ({ s with candidateWant := true }, none, [])
      else
        ({ s with candidates := [] }, none, s.candidates)

/-- The accumulator state produced by `SignalerMake`: empty buffer, no waiting
consumer. -/
def candInit : CandSub := ⟨[], false⟩

/-- States of the accumulator reachable from `candInit` through the two
critical sections. -/
inductive CandReachable : CandSub → Prop where
  | init : CandReachable candInit
  | step {s : CandSub} (e : CandEvent) :
      CandReachable s → CandReachable (candStep s e).1

/-! ## The candidate consumer loop (`candidateProcess`)

`candidateProcess(fn)` loops: steal the whole buffer (or wait on
`candidateChan` for a single hand-off when the buffer is empty), mark `done`
when the batch ends with the sentinel, pass the batch to `fn`, return on `fn`
error or when done.

`candidateProcessRun sched fnRes buf inputs` runs this loop over an explicit
interleaving: `sched` lists, per loop iteration, how many gathering-callback
events (taken in order from `inputs`) fire before the iteration's critical
section; `fnRes` lists the result of each `fn` call; `buf` is the accumulator
content at loop entry.  Returns `none` when the schedule is too short for the
loop to return, otherwise `some (done, error, batches passed to fn in order,
final buffer content, inputs not yet delivered by the callback)`. -/

/-- The batch acquisition of one `candidateProcess` iteration: steal the whole
(non-empty) buffer, or receive a single direct hand-off from the gathering
callback when the buffer is empty.  Arguments: buffer content and undelivered
gathering events at the iteration's critical section; returns the batch and the
remaining undelivered events, or `none` when the consumer would block
forever. -/
def candidateStepPick (buf1 inputs1 : List Candidate) :
    Option (List Candidate × List Candidate) :=
  if buf1.isEmpty then
    match inputs1 with
    | [] => none
    | i :: rest => some ([i], rest)
  else
    some (buf1, inputs1)

def candidateProcessRun :
    List Nat → List (Option Err) → List Candidate → List Candidate →
    Option (Bool × Option Err × List (List Candidate) × List Candidate × List Candidate)
  | [], _, _, _ => none
  | k :: sched, fnRes, buf, inputs =>
    -- `k` gathering events fire first; the consumer is not waiting, so all of
    -- them append to the buffer; then the critical section picks a batch
    match candidateStepPick (buf ++ inputs.take k) (inputs.drop k) with
    | none => none
    | some (c, inputs2) =>
      let done : Bool := c.getLast? == some ""
      match fnRes.headD none with
      | some e => some (done, some e, [c], [], inputs2)
      | none =>
        if done then
          some (true, none, [c], [], inputs2)
        else
          match candidateProcessRun sched fnRes.tail [] inputs2 with
          | none => none
          | some (d, e, bs, b2, i2) => some (d, e, c :: bs, b2, i2)

/-- Method `candidateProcessDiscard` is `candidateProcess` with a
drop-everything `fn` that never fails: every `fn` result is `nil`. -/
def candidateProcessDiscardRun (sched : List Nat) (buf inputs : List Candidate) :
    Option (Bool × Option Err × List (List Candidate) × List Candidate × List Candidate) :=
  candidateProcessRun sched (sched.map fun _ => none) buf inputs

/-! ## Completion bookkeeping: `finish` and `finishAnswer` -/

/-- Method `finish`: under the mutex, either promote the head of `waitPending`
by sending it `nil` (leaving `state` untouched — the promoted goroutine will
absorb the queue itself), or return to `idle`. -/
def finish (s : SigState) : SigState × List (ChanId × Option Err) :=
  match s.waitPending with
  | [] => ({ s with state := .idle }, [])
  | h :: _ => (s, [(h, none)])

/-- Method `finishAnswer`: send `err` to every `waitSimple` channel, then run
`finish`.  The source never clears `waitSimple`. -/
def finishAnswer (s : SigState) (e : Option Err) :
    SigState × List (ChanId × Option Err) :=
  let d1 := s.waitSimple.map fun ch => (ch, e)
  let p := finish s
  (p.1, d1 ++ p.2)

/-! ## The remote-facing `Answer` entry point -/

/-- Results of the external calls `Answer` makes against the local peer
connection. -/
structure AnswerOracle where
  setRemote : Option Err
  createAnswer : Except Err SessionDescription
  setLocal : Option Err
deriving Repr

/-- Method `Answer`.  Returns the pair the method returns, the successor
state, and whether the call suspended on `priorityChan` (the concede
hand-off).  In the glare-with-priority branch the state is left untouched and
a `conflict` error is returned with the zero description.  In all other
branches the state moves to `answering` before the peer-connection calls. -/
def answerEntry (s : SigState) (o : AnswerOracle) :
    (SessionDescription × Option Err) × SigState × Bool :=
  if s.state = .offering ∧ s.priority then
    ((SessionDescription.zero, some (Err.simple conflictMessage)), s, false)
  else
    let waited := s.state = .offering
    let s1 : SigState := { s with state := .answering }
    match o.setRemote with
    | some e => ((SessionDescription.zero, some e), s1, waited)
    | none =>
      match o.createAnswer with
      | .error e => ((SessionDescription.zero, some e), s1, waited)
      | .ok ans =>
        match o.setLocal with
        | some e => ((SessionDescription.zero, some e), s1, waited)
        | none => ((ans, none), s1, waited)

/-! ## The `Negotiate` body

`negotiateBody s sameBatch chC o` models one execution of the part of
`Negotiate` that runs once the caller has become the active negotiator:
`s` is the signaler state at that point (the model sets `state := offering`
and enqueues the round's concurrent arrivals), `sameBatch` the channels of the
batch the negotiator absorbed on promotion (empty for a caller that found the
signaler idle), and `chC` the fresh channel the caller would wait on along the
conceding path.  `o` resolves every external call and interleaving choice of
the round. -/

/-- Environment of one negotiation round. -/
structure RoundOracle where
  /-- Result of `conn.CreateOffer`. -/
  createOffer : Except Err SessionDescription
  /-- Channels enqueued onto `waitPending` by callers arriving during the
  round. -/
  arrivals : List ChanId
  /-- Result of `set.Answer` (the remote peer's answer). -/
  answer : Except Err SessionDescription
  /-- Result of `conn.SetLocalDescription`. -/
  setLocal : Option Err
  /-- Result of `conn.SetRemoteDescription` on the received answer. -/
  setRemote : Option Err
  /-- Result of the empty `set.CandidateAdd()` abort call. -/
  emptyAddRes : Option Err
  /-- Schedule of the first candidate run of the round (send, or discard when
  `SetRemoteDescription` failed). -/
  sched : List Nat
  /-- Results of the `set.CandidateAdd` calls made by the candidate send. -/
  fnRes : List (Option Err)
  /-- Schedule of the clean-up discard after an incomplete send. -/
  sched2 : List Nat
  /-- Candidates delivered by the gathering callback during the round, in
  gathering order (the sentinel `""` stands for the final `nil` event). -/
  inputs : List Candidate
  /-- Value eventually received on `chC` when the round concedes. -/
  concedeVal : Option Err
deriving Repr

/-- Observable outcome of one negotiation round. -/
structure RoundResult where
  /-- The error `Negotiate` returns to the active negotiator. -/
  ret : Option Err
  /-- Signaler state after the round. -/
  st : SigState
  /-- Channel sends performed by the round, in program order. -/
  deliveries : List (ChanId × Option Err)
  /-- Number of `set.Answer` calls made. -/
  answerCalls : Nat
  /-- Batches forwarded to the remote peer via `set.CandidateAdd`. -/
  forwarded : List (List Candidate)
  /-- Batches drained and dropped by `candidateProcessDiscard`. -/
  dropped : List (List Candidate)
  /-- Number of empty `set.CandidateAdd()` abort calls made. -/
  emptyCalls : Nat
  /-- True when the round conceded to the remote side. -/
  conceded : Bool
  /-- Gathering events of the round not yet delivered at its end. -/
  remainingInputs : List Candidate
deriving DecidableEq, Repr

def negotiateBody (s0 : SigState) (sameBatch : List ChanId) (chC : ChanId)
    (o : RoundOracle) : Option RoundResult :=
  -- the active negotiator holds the mutex: state := offering; callers that
  -- arrive during the round enqueue onto waitPending
  let s : SigState :=
    { s0 with state := .offering, waitPending := s0.waitPending ++ o.arrivals }
  match o.createOffer with
  | .error e =>
    -- deferred: finish(), then transmit the error to the batch
    let p := finish s
    some { ret := some e, st := p.1
           deliveries := p.2 ++ sameBatch.map fun ch => (ch, some e)
           answerCalls := 0, forwarded := [], dropped := [], emptyCalls := 0
           conceded := false, remainingInputs := o.inputs }
  | .ok _offer =>
    match o.answer with
    | .error e =>
      if e.error ≠ conflictMessage then
        let p := finish s
        some { ret := some e, st := p.1
               deliveries := p.2 ++ sameBatch.map fun ch => (ch, some e)
               answerCalls := 1, forwarded := [], dropped := [], emptyCalls := 0
               conceded := false, remainingInputs := o.inputs }
      else
        -- the peer also offers and holds priority: concede.  Under the mutex:
        -- join waitSimple, absorb all pending callers into this batch, hand
        -- the mutex to the blocked Answer call (which sets state :=
        -- answering), then wait on chC for the remote round's outcome
        let batch2 := sameBatch ++ s.waitPending
        let s1 : SigState :=
          { s with waitSimple := s.waitSimple ++ [chC], waitPending := []
                   state := .answering }
        some { ret := o.concedeVal, st := s1
               deliveries := batch2.map fun ch => (ch, o.concedeVal)
               answerCalls := 1, forwarded := [], dropped := [], emptyCalls := 0
               conceded := true, remainingInputs := o.inputs }
    | .ok _answer =>
      match o.setLocal with
      | some e =>
        let p := finish s
        some { ret := some e, st := p.1
               deliveries := p.2 ++ sameBatch.map fun ch => (ch, some e)
               answerCalls := 1, forwarded := [], dropped := [], emptyCalls := 0
               conceded := false, remainingInputs := o.inputs }
      | none =>
        -- gathering is now running; candidates will be discarded on error
        match o.setRemote with
        | some e =>
          -- the peer waits for candidates: send the empty abort call, combine
          -- errors, then (deferred) discard, finish, transmit
          let ret := match o.emptyAddRes with
                     | none => some e
                     | some e2 => some (Err.wrapped "negotiation set remote answer" e e2)
          match candidateProcessDiscardRun o.sched s.candidates o.inputs with
          | none => none
          | some (_, _, bs, b2, i2) =>
            let s1 : SigState := { s with candidates := b2 }
            let p := finish s1
            some { ret := ret, st := p.1
                   deliveries := p.2 ++ sameBatch.map fun ch => (ch, ret)
                   answerCalls := 1, forwarded := [], dropped := bs
                   emptyCalls := 1, conceded := false, remainingInputs := i2 }
        | none =>
          -- send candidates until the sentinel or an error
          match candidateProcessRun o.sched o.fnRes s.candidates o.inputs with
          | none => none
          | some (done, e, bs, b2, i2) =>
            if done then
              let s1 : SigState := { s with candidates := b2 }
              let p := finish s1
              some { ret := e, st := p.1
                     deliveries := p.2 ++ sameBatch.map fun ch => (ch, e)
                     answerCalls := 1, forwarded := bs, dropped := []
                     emptyCalls := 0, conceded := false, remainingInputs := i2 }
            else
              -- the send failed before the sentinel: deferred discard drains
              -- the remainder, then finish and transmit
              match candidateProcessDiscardRun o.sched2 b2 i2 with
              | none => none
              | some (_, _, bs2, b3, i3) =>
                let s1 : SigState := { s with candidates := b3 }
                let p := finish s1
                some { ret := e, st := p.1
                       deliveries := p.2 ++ sameBatch.map fun ch => (ch, e)
                       answerCalls := 1, forwarded := bs, dropped := bs2
                       emptyCalls := 0, conceded := false, remainingInputs := i3 }

/-! ## The remote-facing `CandidateAdd` entry point -/

/-- Environment of one `CandidateAdd` invocation. -/
structure CandAddOracle where
  /-- Schedule of the local candidate sender spawned for the answer side. -/
  senderSched : List Nat
  /-- Results of the remote `set.CandidateAdd` calls made by that sender. -/
  senderFnRes : List (Option Err)
  /-- Schedule of the sender's clean-up discard when it fails early. -/
  senderSched2 : List Nat
  /-- Candidates delivered by the local gathering callback. -/
  inputs : List Candidate
  /-- Results of the `conn.AddICECandidate` calls, per non-sentinel
  candidate. -/
  addIceRes : List (Option Err)
deriving Repr

/-- Effects of the goroutines involved in a `CandidateAdd` call. -/
structure CandAddEffects where
  st : SigState
  deliveries : List (ChanId × Option Err)
  forwarded : List (List Candidate)
  dropped : List (List Candidate)
deriving DecidableEq, Repr

/-- The incoming-candidate loop of `CandidateAdd`: add each candidate to the
local connection; the sentinel triggers `candidateAdd_finish` (which returns
the local sender's error); an `AddICECandidate` error triggers the same finish
and wraps a non-nil sender error around the add error.  Returns the value
`CandidateAdd` returns and whether `candidateAdd_finish` ran. -/
def candidateAddLoop (addIceRes : List (Option Err)) (senderErr : Option Err) :
    List Candidate → Option Err × Bool
  | [] => (none, false)
  | c :: rest =>
    if c = "" then
      (senderErr, true)
    else
      match addIceRes.headD none with
      | some e =>
        (match senderErr with
         | none => some e
         | some e2 => some (.wrapped "add ice candidate" e e2), true)
      | none => candidateAddLoop addIceRes.tail senderErr rest

/-- Method `CandidateAdd`.  First component: the value returned to the remote
caller (`none` in the first position meaning the call blocks forever waiting
for the local sender).  Second component: the state and sends produced by the
call and its helper goroutines (`none` when their schedule is incomplete).

With zero arguments: remote negotiation failed; a goroutine discards local
candidates and runs `finishAnswer` with the `peer rejected answer` error, and
the call itself returns `nil` at once.  Otherwise the first batch spawns the
local candidate sender, and the incoming candidates are added until the
sentinel. -/
def candidateAdd (s : SigState) (o : CandAddOracle) (cs : List Candidate) :
    Option (Option Err) × Option CandAddEffects :=
  if cs.isEmpty then
    (some none,
      match candidateProcessDiscardRun o.senderSched s.candidates o.inputs with
      | none => none
      | some (_, _, bs, b2, _) =>
        let s1 : SigState := { s with candidates := b2 }
        let p := finishAnswer s1 (some (.simple "peer rejected answer"))
        some { st := p.1, deliveries := p.2, forwarded := [], dropped := bs })
  else
    -- the spawned sender: forward local candidates; discard the rest if the
    -- sentinel was not reached; its error is handed to candidateAdd_finish
    let sender : Option (Option Err × List (List Candidate) × List (List Candidate) × List Candidate) :=
      match candidateProcessRun o.senderSched o.senderFnRes s.candidates o.inputs with
      | none => none
      | some (done, e, bs, b2, i2) =>
        if done then some (e, bs, [], b2)
        else
          match candidateProcessDiscardRun o.senderSched2 b2 i2 with
          | none => none
          | some (_, _, bs2, b3, _) => some (e, bs, bs2, b3)
    match sender with
    | none =>
      -- the local sender never finishes; the call returns only when the
      -- incoming batch needs no finish
      let r := candidateAddLoop o.addIceRes none cs
      if r.2 then (none, none) else (some r.1, none)
    | some (se, bs, bs2, b3) =>
      let r := candidateAddLoop o.addIceRes se cs
      if r.2 then
        let s1 : SigState := { s with candidates := b3 }
        let p := finishAnswer s1 se
        (some r.1, some { st := p.1, deliveries := p.2, forwarded := bs, dropped := bs2 })
      else
        (some r.1, some { st := { s with candidates := b3 }, deliveries := []
                          forwarded := bs, dropped := bs2 })

/-! ## Multi-caller composition

`twoCallerRun` composes two concurrent `Negotiate` callers on one Signaler:
caller 1 finds the state and, if idle, becomes the active negotiator with an
empty batch; caller 2 arrives during round 1 (it is `o1.arrivals`'s head),
is promoted by round 1's `finish`, absorbs the rest of the queue and runs
round 2. -/

def negotiateWake (s : SigState) (ch chC : ChanId) (o : RoundOracle) :
    Option RoundResult :=
  -- the woken goroutine re-locks and checks whether it heads the queue
  if s.waitPending.head? = some ch then
    let batch := s.waitPending.tail
    negotiateBody { s with waitPending := [] } batch chC o
  else
    none

def twoCallerRun (s0 : SigState) (ch2 chC1 chC2 : ChanId) (o1 o2 : RoundOracle) :
    Option (RoundResult × RoundResult) :=
  if s0.state = .idle then
    match negotiateBody s0 [] chC1 o1 with
    | none => none
    | some r1 =>
      match negotiateWake r1.st ch2 chC2 o2 with
      | none => none
      | some r2 => some (r1, r2)
  else
    none

/-! ## Concrete executions used as witnesses -/

/-- An idle signaler with empty queues, as produced by `SignalerMake`. -/
def sIdle0 : SigState :=
  { priority := false, state := .idle, candidates := [], candidateWant := false
    waitPending := [], waitSimple := [] }

/-- Round-1 environment of a two-caller happy-path execution: caller 2 arrives
during the round (channel 7); the remote answers without conflict; two
gathering events (a real candidate, then the sentinel) are consumed in two
loop iterations. -/
def oH1 : RoundOracle :=
  { createOffer := .ok ⟨1, "o1"⟩, arrivals := [7], answer := .ok ⟨2, "a1"⟩
    setLocal := none, setRemote := none, emptyAddRes := none
    sched := [1, 1], fnRes := [none, none], sched2 := []
    inputs := ["a", ""], concedeVal := none }

/-- Round-2 environment of the same execution (the promoted caller's own
round). -/
def oH2 : RoundOracle :=
  { createOffer := .ok ⟨1, "o2"⟩, arrivals := [], answer := .ok ⟨2, "a2"⟩
    setLocal := none, setRemote := none, emptyAddRes := none
    sched := [1, 1], fnRes := [none, none], sched2 := []
    inputs := ["b", ""], concedeVal := none }

/-- Outcome of round 1 of the two-caller execution. -/
def r1ExW : RoundResult :=
  { ret := none
    st := { priority := false, state := .offering, candidates := []
            candidateWant := false, waitPending := [7], waitSimple := [] }
    deliveries := [(7, none)], answerCalls := 1, forwarded := [["a"], [""]]
    dropped := [], emptyCalls := 0, conceded := false, remainingInputs := [] }

/-- Outcome of round 2 of the two-caller execution. -/
def r2ExW : RoundResult :=
  { ret := none
    st := { priority := false, state := .idle, candidates := []
            candidateWant := false, waitPending := [], waitSimple := [] }
    deliveries := [], answerCalls := 1, forwarded := [["b"], [""]]
    dropped := [], emptyCalls := 0, conceded := false, remainingInputs := [] }

/-- Round environment in which the remote answers with the conflict error. -/
def oConcW : RoundOracle :=
  { createOffer := .ok ⟨1, "o"⟩, arrivals := [], answer := .error (Err.simple "conflict")
    setLocal := none, setRemote := none, emptyAddRes := none
    sched := [], fnRes := [], sched2 := [], inputs := [], concedeVal := none }

/-- Outcome of the conceded round driven by `oConcW` from `sIdle0`. -/
def r1ConcW : RoundResult :=
  { ret := none
    st := { priority := false, state := .answering, candidates := []
            candidateWant := false, waitPending := [], waitSimple := [9] }
    deliveries := [], answerCalls := 1, forwarded := [], dropped := []
    emptyCalls := 0, conceded := true, remainingInputs := [] }

/-- Outcome of a batch round with two absorbed waiters, driven by `oH2` from
`sIdle0`. -/
def r2BatchW : RoundResult :=
  { ret := none
    st := { priority := false, state := .idle, candidates := []
            candidateWant := false, waitPending := [], waitSimple := [] }
    deliveries := [(3, none), (4, none)], answerCalls := 1
    forwarded := [["b"], [""]], dropped := [], emptyCalls := 0
    conceded := false, remainingInputs := [] }

/-- A signaler with a dangling answer: one accumulated candidate, one
`waitSimple` waiter. -/
def sC5W : SigState :=
  { priority := false, state := .answering, candidates := ["x"]
    candidateWant := false, waitPending := [], waitSimple := [5] }

/-- Environment of an empty-batch `CandidateAdd` call on `sC5W`: the sentinel
arrives during the discard drain. -/
def oC5W : CandAddOracle :=
  { senderSched := [1], senderFnRes := [], senderSched2 := []
    inputs := [""], addIceRes := [] }

/-- Effects of that empty-batch call. -/
def effC5W : CandAddEffects :=
  { st := { priority := false, state := .idle, candidates := []
            candidateWant := false, waitPending := [], waitSimple := [5] }
    deliveries := [(5, some (.simple "peer rejected answer"))]
    forwarded := [], dropped := [["x", ""]] }

/-- Round environment whose candidate send fails before the sentinel (the
first forward returns an error), forcing the clean-up discard. -/
def oC6W : RoundOracle :=
  { createOffer := .ok ⟨1, "o"⟩, arrivals := [], answer := .ok ⟨2, "a"⟩
    setLocal := none, setRemote := none, emptyAddRes := none
    sched := [1], fnRes := [some (Err.simple "boom")], sched2 := [1]
    inputs := ["y", ""], concedeVal := none }

/-- Outcome of that failed round from `sIdle0`. -/
def rC6W : RoundResult :=
  { ret := some (Err.simple "boom")
    st := { priority := false, state := .idle, candidates := []
            candidateWant := false, waitPending := [], waitSimple := [] }
    deliveries := [], answerCalls := 1, forwarded := [["y"]]
    dropped := [[""]], emptyCalls := 0, conceded := false, remainingInputs := [] }

/-! # Theorems -/

/-! ## List helpers -/

theorem getLast?_some_concat {α : Type} {l : List α} {a : α}
    (h : l.getLast? = some a) : ∃ t, l = t ++ [a] := by
  rcases List.eq_nil_or_concat l with rfl | ⟨L, b, rfl⟩
  · simp at h
  · rw [List.concat_eq_append, List.getLast?_concat] at h
    injection h with h
    exact ⟨L, by rw [List.concat_eq_append, h]⟩

/-- If a list ending in `a` extends, inside a larger concatenation, to the same
list as `pre ++ [a]` where `a` does not occur in `pre`, the part after `a` is
empty. -/
theorem eq_nil_of_append_sentinel {α : Type} {l1 l2 pre : List α} {a : α}
    (h : l1 ++ [a] ++ l2 = pre ++ [a]) (hna : a ∉ pre) : l2 = [] := by
  rcases List.eq_nil_or_concat l2 with rfl | ⟨L, b, rfl⟩
  · rfl
  · exfalso
    rw [List.concat_eq_append, ← List.append_assoc] at h
    obtain ⟨h1, h2⟩ := List.append_inj' h rfl
    apply hna
    rw [← h1]
    simp

/-! ## Candidate loop lemmas -/

/-- A successful pick yields a non-empty batch that, followed by the remaining
events, is exactly the buffer followed by the pending events. -/
theorem candidateStepPick_append {buf1 inputs1 c inputs2 : List Candidate}
    (h : candidateStepPick buf1 inputs1 = some (c, inputs2)) :
    c ++ inputs2 = buf1 ++ inputs1 ∧ c ≠ [] := by
  unfold candidateStepPick at h
  by_cases hb : buf1.isEmpty
  · rw [if_pos hb] at h
    have hbuf : buf1 = [] := List.isEmpty_iff.mp hb
    match inputs1, h with
    | i :: rest, h =>
      simp only [Option.some.injEq, Prod.mk.injEq] at h
      obtain ⟨hc, hrest⟩ := h
      subst hc; subst hrest; subst hbuf
      exact ⟨rfl, by simp⟩
  · rw [if_neg hb] at h
    simp only [Option.some.injEq, Prod.mk.injEq] at h
    obtain ⟨hc, hrest⟩ := h
    subst hc; subst hrest
    exact ⟨rfl, fun hn => hb (by simp [hn])⟩

/-- Accounting invariant of the consumer loop: the batches handed to `fn`, the
final buffer and the undelivered inputs partition the initial buffer plus the
full input stream, in order. -/
theorem candidateProcessRun_flatten (sched : List Nat) (fnRes : List (Option Err))
    (buf inputs : List Candidate) (d : Bool) (e : Option Err)
    (bs : List (List Candidate)) (b2 i2 : List Candidate)
    (h : candidateProcessRun sched fnRes buf inputs = some (d, e, bs, b2, i2)) :
    bs.flatten ++ b2 ++ i2 = buf ++ inputs := by
  induction sched generalizing fnRes buf inputs d e bs b2 i2 with
  | nil => simp [candidateProcessRun] at h
  | cons k sched ih =>
    rw [candidateProcessRun] at h
    match hpick : candidateStepPick (buf ++ inputs.take k) (inputs.drop k) with
    | none => rw [hpick] at h; exact absurd h (by simp)
    | some (c, inputs2) =>
      rw [hpick] at h
      have hacc : c ++ inputs2 = buf ++ inputs := by
        have h1 := (candidateStepPick_append hpick).1
        rw [List.append_assoc, List.take_append_drop] at h1
        exact h1
      simp only at h
      match hf : fnRes.headD none with
      | some e' =>
        rw [hf] at h
        simp only [Option.some.injEq, Prod.mk.injEq] at h
        obtain ⟨hd, he, hbs, hb2, hi2⟩ := h
        subst hbs; subst hb2; subst hi2
        simpa using hacc
      | none =>
        rw [hf] at h
        by_cases hdone : (c.getLast? == some (α := Candidate) "") = true
        · rw [if_pos hdone] at h
          simp only [Option.some.injEq, Prod.mk.injEq] at h
          obtain ⟨hd, he, hbs, hb2, hi2⟩ := h
          subst hbs; subst hb2; subst hi2
          simpa using hacc
        · rw [if_neg hdone] at h
          match hr : candidateProcessRun sched fnRes.tail [] inputs2 with
          | none => rw [hr] at h; exact absurd h (by simp)
          | some (d', e', bs', b2', i2') =>
            rw [hr] at h
            simp only [Option.some.injEq, Prod.mk.injEq] at h
            obtain ⟨hd, he, hbs, hb2, hi2⟩ := h
            subst hbs; subst hb2; subst hi2
            have hrec := ih fnRes.tail [] inputs2 d' e' bs' b2' i2' hr
            simp only [List.nil_append] at hrec
            rw [← hacc]
            simp only [List.flatten_cons, List.append_assoc]
            simp only [List.append_assoc] at hrec
            rw [hrec]

/-- A loop run that reports `done = true` produced at least one batch, and its
final batch ends with the sentinel. -/
theorem candidateProcessRun_done (sched : List Nat) (fnRes : List (Option Err))
    (buf inputs : List Candidate) (e : Option Err)
    (bs : List (List Candidate)) (b2 i2 : List Candidate)
    (h : candidateProcessRun sched fnRes buf inputs = some (true, e, bs, b2, i2)) :
    ∃ bs' lp, bs = bs' ++ [lp ++ [""]] := by
  induction sched generalizing fnRes buf inputs e bs b2 i2 with
  | nil => simp [candidateProcessRun] at h
  | cons k sched ih =>
    rw [candidateProcessRun] at h
    match hpick : candidateStepPick (buf ++ inputs.take k) (inputs.drop k) with
    | none => rw [hpick] at h; exact absurd h (by simp)
    | some (c, inputs2) =>
      rw [hpick] at h
      simp only at h
      match hf : fnRes.headD none with
      | some e' =>
        rw [hf] at h
        simp only [Option.some.injEq, Prod.mk.injEq] at h
        obtain ⟨hd, he, hbs, hb2, hi2⟩ := h
        subst hbs
        obtain ⟨t, ht⟩ := getLast?_some_concat (eq_of_beq hd)
        exact ⟨[], t, by rw [ht]; rfl⟩
      | none =>
        rw [hf] at h
        by_cases hdone : (c.getLast? == some (α := Candidate) "") = true
        · rw [if_pos hdone] at h
          simp only [Option.some.injEq, Prod.mk.injEq] at h
          obtain ⟨hd, he, hbs, hb2, hi2⟩ := h
          subst hbs
          obtain ⟨t, ht⟩ := getLast?_some_concat (eq_of_beq hdone)
          exact ⟨[], t, by rw [ht]; rfl⟩
        · rw [if_neg hdone] at h
          match hr : candidateProcessRun sched fnRes.tail [] inputs2 with
          | none => rw [hr] at h; exact absurd h (by simp)
          | some (d', e', bs', b2', i2') =>
            rw [hr] at h
            simp only [Option.some.injEq, Prod.mk.injEq] at h
            obtain ⟨hd, he, hbs, hb2, hi2⟩ := h
            subst hbs
            subst hd
            obtain ⟨bs'', lp, hdec⟩ := ih fnRes.tail [] inputs2 e' bs' b2' i2' hr
            exact ⟨c :: bs'', lp, by rw [hdec]; rfl⟩

/-- When a concatenation ends with a sentinel that does not occur earlier, any
non-empty tail piece of the concatenation also ends with the sentinel and
avoids it before the end. -/
theorem suffix_wf {α : Type} {X Y pre : List α} {a : α}
    (h : X ++ Y = pre ++ [a]) (hna : a ∉ pre) (hY : Y ≠ []) :
    ∃ q, Y = q ++ [a] ∧ a ∉ q := by
  rcases List.eq_nil_or_concat Y with rfl | ⟨L, b, rfl⟩
  · exact absurd rfl hY
  · rw [List.concat_eq_append, ← List.append_assoc] at h
    obtain ⟨h1, h2⟩ := List.append_inj' h rfl
    have hb : b = a := by injection h2
    subst hb
    refine ⟨L, by rw [List.concat_eq_append], fun hmem => hna ?_⟩
    rw [← h1]
    exact List.mem_append_right _ hmem

/-- Fully-drained form of a completed loop run: when the gathering stream ends
with a unique sentinel, a `done` run has forwarded exactly the stream, in
order, its final batch ends with the sentinel, and nothing remains buffered or
pending. -/
theorem candidateProcessRun_drain (sched : List Nat) (fnRes : List (Option Err))
    (buf inputs pre : List Candidate) (e : Option Err)
    (bs : List (List Candidate)) (b2 i2 : List Candidate)
    (hwf : buf ++ inputs = pre ++ [""]) (hpre : "" ∉ pre)
    (h : candidateProcessRun sched fnRes buf inputs = some (true, e, bs, b2, i2)) :
    bs.flatten = pre ++ [""] ∧ b2 = [] ∧ i2 = [] ∧ ∃ bs' lp, bs = bs' ++ [lp ++ [""]] := by
  obtain ⟨bs', lp, hbs⟩ := candidateProcessRun_done sched fnRes buf inputs e bs b2 i2 h
  have hacc := candidateProcessRun_flatten sched fnRes buf inputs true e bs b2 i2 h
  rw [hwf] at hacc
  have hfl : bs.flatten = (bs'.flatten ++ lp) ++ [""] := by
    rw [hbs]
    simp [List.append_assoc]
  rw [hfl] at hacc
  have hsplit : (bs'.flatten ++ lp) ++ [""] ++ (b2 ++ i2) = pre ++ [""] := by
    rw [← hacc]
    simp [List.append_assoc]
  have hnil : b2 ++ i2 = [] := eq_nil_of_append_sentinel hsplit hpre
  obtain ⟨hb2, hi2⟩ := List.append_eq_nil.mp hnil
  subst hb2; subst hi2
  refine ⟨?_, rfl, rfl, bs', lp, hbs⟩
  rw [hfl]
  simpa using hacc

/-- A loop run whose `fn` never fails (the discard direction) can only return
by reaching the sentinel, with no error. -/
theorem candidateProcessRun_allNone (sched : List Nat) (fnRes : List (Option Err))
    (buf inputs : List Candidate) (d : Bool) (e : Option Err)
    (bs : List (List Candidate)) (b2 i2 : List Candidate)
    (hfn : ∀ x ∈ fnRes, x = none)
    (h : candidateProcessRun sched fnRes buf inputs = some (d, e, bs, b2, i2)) :
    d = true ∧ e = none := by
  induction sched generalizing fnRes buf inputs d e bs b2 i2 with
  | nil => simp [candidateProcessRun] at h
  | cons k sched ih =>
    rw [candidateProcessRun] at h
    match hpick : candidateStepPick (buf ++ inputs.take k) (inputs.drop k) with
    | none => rw [hpick] at h; exact absurd h (by simp)
    | some (c, inputs2) =>
      rw [hpick] at h
      simp only at h
      match hf : fnRes.headD none with
      | some e' =>
        exfalso
        match fnRes, hf with
        | x :: rest, hf =>
          have : x = none := hfn x (List.mem_cons_self x rest)
          rw [List.headD_cons] at hf
          rw [this] at hf
          exact absurd hf (by simp)
      | none =>
        rw [hf] at h
        by_cases hdone : (c.getLast? == some (α := Candidate) "") = true
        · rw [if_pos hdone] at h
          simp only [Option.some.injEq, Prod.mk.injEq] at h
          exact ⟨h.1.symm, h.2.1.symm⟩
        · rw [if_neg hdone] at h
          match hr : candidateProcessRun sched fnRes.tail [] inputs2 with
          | none => rw [hr] at h; exact absurd h (by simp)
          | some (d', e', bs', b2', i2') =>
            rw [hr] at h
            simp only [Option.some.injEq, Prod.mk.injEq] at h
            obtain ⟨hd, he, _, _, _⟩ := h
            have htl : ∀ x ∈ fnRes.tail, x = none := fun x hx =>
              hfn x (List.mem_of_mem_tail hx)
            obtain ⟨hd', he'⟩ := ih fnRes.tail [] inputs2 d' e' bs' b2' i2' htl hr
            exact ⟨hd ▸ hd', he ▸ he'⟩

/-- The discard direction returns only by reaching the sentinel, never with an
error. -/
theorem candidateProcessDiscardRun_spec (sched : List Nat)
    (buf inputs : List Candidate) (d : Bool) (e : Option Err)
    (bs : List (List Candidate)) (b2 i2 : List Candidate)
    (h : candidateProcessDiscardRun sched buf inputs = some (d, e, bs, b2, i2)) :
    d = true ∧ e = none := by
  refine candidateProcessRun_allNone sched (sched.map fun _ => none) buf inputs d e bs b2 i2
    (fun x hx => ?_) h
  obtain ⟨_, _, hx⟩ := List.mem_map.mp hx
  exact hx.symm

/-! ## Delivery bookkeeping helpers -/

theorem filter_pair_not_mem (l : List ChanId) (v : Option Err) (c : ChanId)
    (h : c ∉ l) :
    (l.map fun ch => (ch, v)).filter (fun p => p.1 == c) = [] := by
  induction l with
  | nil => rfl
  | cons a l ih =>
    simp only [List.map_cons, List.filter_cons]
    have hne : ((a, v).1 == c) = false := by
      simp only [beq_eq_false_iff_ne, ne_eq]
      rintro rfl
      exact h (List.mem_cons_self a l)
    rw [hne]
    simp only [Bool.false_eq_true, if_false]
    exact ih fun hx => h (List.mem_cons_of_mem a hx)

theorem filter_pair_nodup (l : List ChanId) (v : Option Err) (c : ChanId)
    (hnd : l.Nodup) (hc : c ∈ l) :
    (l.map fun ch => (ch, v)).filter (fun p => p.1 == c) = [(c, v)] := by
  induction l with
  | nil => simp at hc
  | cons a l ih =>
    rcases List.mem_cons.mp hc with rfl | hc2
    · simp only [List.map_cons, List.filter_cons]
      have heq : ((c, v).1 == c) = true := by simp
      rw [heq]
      simp only [if_true]
      rw [filter_pair_not_mem l v c (List.nodup_cons.mp hnd).1]
    · simp only [List.map_cons, List.filter_cons]
      have hne : ((a, v).1 == c) = false := by
        simp only [beq_eq_false_iff_ne, ne_eq]
        rintro rfl
        exact (List.nodup_cons.mp hnd).1 hc2
      rw [hne]
      simp only [Bool.false_eq_true, if_false]
      exact ih (List.nodup_cons.mp hnd).2 hc2

/-! ## Shape of a negotiation round -/

/-- Case analysis of a completed `Negotiate` round: either the round conceded
(joining `waitSimple`, absorbing all pending callers into its batch, handing
the state to the answering path), or it ran `finish`: back to `idle` with no
queued caller, otherwise promoting the queue head with a `nil` send and an
unchanged `offering` state.  In every case the batch receives exactly the
negotiator's own result. -/
theorem negotiateBody_shape (s : SigState) (batch : List ChanId) (chC : ChanId)
    (o : RoundOracle) (r : RoundResult)
    (h : negotiateBody s batch chC o = some r) :
    (r.conceded = true ∧ r.ret = o.concedeVal ∧
      r.deliveries = (batch ++ (s.waitPending ++ o.arrivals)).map (fun ch => (ch, r.ret)) ∧
      r.st.state = .answering ∧ r.st.waitPending = []) ∨
    (r.conceded = false ∧
      ((s.waitPending ++ o.arrivals = [] ∧ r.st.state = .idle ∧ r.st.waitPending = [] ∧
        r.deliveries = batch.map (fun ch => (ch, r.ret))) ∨
       (∃ hd tl, s.waitPending ++ o.arrivals = hd :: tl ∧ r.st.state = .offering ∧
        r.st.waitPending = hd :: tl ∧
        r.deliveries = (hd, none) :: batch.map (fun ch => (ch, r.ret))))) := by
  rw [negotiateBody] at h
  repeat' split at h
  all_goals first
    | (exfalso; simp at h; done)
    | (simp only [Option.some.injEq] at h
       subst h
       first
        | exact Or.inl ⟨rfl, rfl, rfl, rfl, rfl⟩
        | (right
           refine ⟨rfl, ?_⟩
           rcases hpf : s.waitPending ++ o.arrivals with _ | ⟨hd, tl⟩
           · refine Or.inl ⟨rfl, ?_, ?_, ?_⟩ <;> simp [finish, hpf]
           · refine Or.inr ⟨hd, tl, rfl, ?_, ?_, ?_⟩ <;> simp [finish, hpf]))

/-- Both branches of `finish` preserve the candidate buffer. -/
theorem finish_candidates (s : SigState) : (finish s).1.candidates = s.candidates := by
  rw [finish]
  split <;> rfl

/-- Every send performed by `finish` carries the value `nil`. -/
theorem finish_deliv_none (s : SigState) (p : ChanId × Option Err)
    (h : p ∈ (finish s).2) : p.2 = none := by
  rw [finish] at h
  split at h
  · simp at h
  · simp only [List.mem_singleton] at h
    rw [h]

/-- The consumer loop can never return when there is nothing buffered and
nothing left to gather: it blocks. -/
theorem candidateProcessRun_nil (sched : List Nat) (fnRes : List (Option Err)) :
    candidateProcessRun sched fnRes [] [] = none := by
  cases sched with
  | nil => rfl
  | cons k sched => simp [candidateProcessRun, candidateStepPick]

/-- Once the offer has been created, every path of a round calls `set.Answer`
exactly once. -/
theorem negotiateBody_answerCalls (s : SigState) (batch : List ChanId) (chC : ChanId)
    (o : RoundOracle) (r : RoundResult) (d : SessionDescription)
    (hc : o.createOffer = .ok d)
    (h : negotiateBody s batch chC o = some r) : r.answerCalls = 1 := by
  rw [negotiateBody] at h
  rw [hc] at h
  simp only at h
  repeat' split at h
  all_goals first
    | (exfalso; simp at h; done)
    | (simp only [Option.some.injEq] at h; subst h; rfl)

/-- The glare classification of `Negotiate`: an error from `set.Answer` takes
the conceding path exactly when its message is the conflict sentinel;
otherwise it is returned as-is. -/
theorem negotiateBody_classify (s : SigState) (batch : List ChanId) (chC : ChanId)
    (o : RoundOracle) (r : RoundResult) (e : Err) (d : SessionDescription)
    (hc : o.createOffer = .ok d) (ha : o.answer = .error e)
    (h : negotiateBody s batch chC o = some r) :
    (e.error = conflictMessage → r.conceded = true ∧ r.ret = o.concedeVal) ∧
    (e.error ≠ conflictMessage → r.conceded = false ∧ r.ret = some e) := by
  rw [negotiateBody] at h
  rw [hc, ha] at h
  simp only at h
  split at h
  · rename_i hcm
    simp only [Option.some.injEq] at h
    subst h
    exact ⟨fun hm => absurd hm hcm, fun _ => ⟨rfl, rfl⟩⟩
  · rename_i hcm
    simp only [ne_eq, not_not] at hcm
    simp only [Option.some.injEq] at h
    subst h
    exact ⟨fun _ => ⟨rfl, rfl⟩, fun hn => absurd hcm hn⟩

/-! # Claim theorems -/

/-- C9: for every non-empty candidate string `s`, converting the `Candidate`
value of `s` to the remote wire form (`webrtc.ICECandidateInit` via
`Candidate.Convert`) and reading the payload back yields `s` unchanged. -/
theorem C9_convert_roundtrip (s : Candidate) (h : s ≠ "") :
    (Candidate.convert s).candidate = s := rfl

theorem C9_witness :
    ("cand" : Candidate) ≠ "" ∧ (Candidate.convert "cand").candidate = "cand" :=
  ⟨by decide, C9_convert_roundtrip "cand" (by decide)⟩

/-- C7: in every reachable state of the candidate accumulator,
`candidateWant = true` and a non-empty `candidates` buffer never hold
simultaneously; moreover `candidateHandle` hands a new candidate directly to
the waiting consumer (clearing `candidateWant`) instead of appending it, and
the `candidateProcess` critical section leaves `candidateWant` untouched when
the buffer is non-empty (it sets the flag only on an empty buffer). -/
theorem C7_want_excludes_buffer :
    (∀ s : CandSub, CandReachable s → s.candidateWant = true → s.candidates = []) ∧
    (∀ (s : CandSub) (c : Candidate), s.candidateWant = true →
      candStep s (.handle c) = ({ s with candidateWant := false }, some c, [])) ∧
    (∀ s : CandSub, s.candidates.isEmpty = false →
      (candStep s .probe).1.candidateWant = s.candidateWant) := by
  refine ⟨?_, ?_, ?_⟩
  · intro s hs
    induction hs with
    | init => intro hw; simp [candInit] at hw
    | step e hs ih =>
      rename_i t
      intro hw
      match e with
      | .handle c =>
        simp only [candStep] at hw ⊢
        by_cases hwant : t.candidateWant
        · rw [if_pos hwant] at hw
          simp at hw
        · rw [if_neg hwant] at hw
          simp only at hw
          exact absurd hw (by simpa using hwant)
      | .probe =>
        simp only [candStep] at hw ⊢
        by_cases hemp : t.candidates.isEmpty
        · rw [if_pos hemp] at hw ⊢
          exact List.isEmpty_iff.mp hemp
        · rw [if_neg hemp]
  · intro s c hw
    simp [candStep, hw]
  · intro s hemp
    simp [candStep, hemp]

theorem C7_witness :
    (candStep candInit .probe).1.candidates = [] ∧
    candStep ⟨[], true⟩ (.handle "x") = (⟨[], false⟩, some "x", []) ∧
    (candStep ⟨["y"], false⟩ .probe).1.candidateWant = false :=
  ⟨C7_want_excludes_buffer.1 _ (CandReachable.step .probe CandReachable.init) rfl,
   C7_want_excludes_buffer.2.1 ⟨[], true⟩ "x" rfl,
   C7_want_excludes_buffer.2.2 ⟨["y"], false⟩ rfl⟩

/-- C1: for every completed send round (`candidateProcessSend` returning
`done = true`), the batches forwarded to the remote peer via
`SignalerSet.CandidateAdd` contain, in order, exactly the candidates delivered
to `candidateHandle` by the gathering callback (buffered ones first, then the
in-round events): batches coalesce consecutive candidates but never reorder
them; the sentinel is the last element of the final forwarded batch; and
nothing is forwarded after the sentinel (the flattened forwards end at the
sentinel and nothing remains buffered or undelivered). -/
theorem C1_send_order (sched : List Nat) (fnRes : List (Option Err))
    (buf inputs pre : List Candidate) (e : Option Err)
    (bs : List (List Candidate)) (b2 i2 : List Candidate)
    (hwf : buf ++ inputs = pre ++ [""]) (hpre : "" ∉ pre)
    (h : candidateProcessRun sched fnRes buf inputs = some (true, e, bs, b2, i2)) :
    bs.flatten = pre ++ [""] ∧ (∃ bs' lp, bs = bs' ++ [lp ++ [""]]) ∧
    b2 = [] ∧ i2 = [] := by
  obtain ⟨hfl, hb2, hi2, hlast⟩ :=
    candidateProcessRun_drain sched fnRes buf inputs pre e bs b2 i2 hwf hpre h
  exact ⟨hfl, hlast, hb2, hi2⟩

theorem C1_witness :
    ([["a"], [""]] : List (List Candidate)).flatten = ["a"] ++ [""] :=
  (C1_send_order [1, 1] [] [] ["a", ""] ["a"] none [["a"], [""]] [] []
    rfl (by decide) rfl).1

/-- C2: whenever `Answer` runs while the state is `offering` and the signaler
holds priority, it returns the zero `SessionDescription` together with an
error whose message is exactly `"conflict"`; conversely `Negotiate` treats an
error from `set.Answer` as a glare conflict (conceding instead of returning
it) precisely when the error's message equals `"conflict"`. -/
theorem C2_conflict_protocol :
    (∀ (s : SigState) (oA : AnswerOracle), s.state = .offering → s.priority = true →
      (answerEntry s oA).1 =
        (SessionDescription.zero, some (Err.simple conflictMessage)) ∧
      (Err.simple conflictMessage).error = "conflict") ∧
    (∀ (s : SigState) (batch : List ChanId) (chC : ChanId) (o : RoundOracle)
        (r : RoundResult) (e : Err) (d : SessionDescription),
      o.createOffer = .ok d → o.answer = .error e →
      negotiateBody s batch chC o = some r →
      ((e.error = "conflict" → r.conceded = true ∧ r.ret = o.concedeVal) ∧
       (e.error ≠ "conflict" → r.conceded = false ∧ r.ret = some e))) := by
  constructor
  · intro s oA hs hp
    refine ⟨?_, rfl⟩
    rw [answerEntry, if_pos ⟨hs, hp⟩]
  · intro s batch chC o r e d hc ha h
    exact negotiateBody_classify s batch chC o r e d hc ha h

theorem C2_witness :
    ((answerEntry ⟨true, .offering, [], false, [], []⟩ ⟨none, .ok ⟨2, "a"⟩, none⟩).1 =
      (SessionDescription.zero, some (Err.simple conflictMessage))) ∧
    (r1ConcW.conceded = true ∧ r1ConcW.ret = oConcW.concedeVal) :=
  ⟨(C2_conflict_protocol.1 ⟨true, .offering, [], false, [], []⟩
      ⟨none, .ok ⟨2, "a"⟩, none⟩ rfl rfl).1,
   (C2_conflict_protocol.2 sIdle0 [] 9 oConcW r1ConcW (Err.simple "conflict") ⟨1, "o"⟩
      rfl rfl rfl).1 rfl⟩

/-- C3: for every negotiation round resolved by an active negotiator, every
result channel in that round's batch receives exactly one value, and that
value is the identical error (or `nil`) that the active negotiator itself
received for the round (`r.ret`): the deliveries to any batch member filter to
the singleton carrying the round's result. -/
theorem C3_batch_identical (s : SigState) (batch : List ChanId) (chC : ChanId)
    (o : RoundOracle) (r : RoundResult) (c : ChanId)
    (h : negotiateBody s batch chC o = some r)
    (hnd : batch.Nodup)
    (hdisj : ∀ x ∈ batch, x ∉ s.waitPending ++ o.arrivals)
    (hc : c ∈ batch) :
    r.deliveries.filter (fun p => p.1 == c) = [(c, r.ret)] := by
  rcases negotiateBody_shape s batch chC o r h with
    ⟨_, _, hdel, _, _⟩ | ⟨_, hcase⟩
  · rw [hdel, List.map_append, List.filter_append]
    rw [filter_pair_nodup batch r.ret c hnd hc]
    rw [filter_pair_not_mem _ r.ret c (hdisj c hc)]
    simp
  · rcases hcase with ⟨_, _, _, hdel⟩ | ⟨hd, tl, hpf, _, _, hdel⟩
    · rw [hdel, filter_pair_nodup batch r.ret c hnd hc]
    · rw [hdel, List.filter_cons]
      have hne : (((hd, none) : ChanId × Option Err).1 == c) = false := by
        simp only [beq_eq_false_iff_ne, ne_eq]
        intro heq
        apply hdisj c hc
        rw [hpf, ← heq]
        exact List.mem_cons_self _ _
      rw [hne]
      simp only [Bool.false_eq_true, if_false]
      exact filter_pair_nodup batch r.ret c hnd hc

theorem C3_witness :
    r2BatchW.deliveries.filter (fun p => p.1 == 3) = [(3, r2BatchW.ret)] :=
  C3_batch_identical sIdle0 [3, 4] 9 oH2 r2BatchW 3 rfl (by decide) (by decide) (by decide)

/-- C4: whenever a round completes without conceding, the machine goes back to
`idle` when no caller is queued; when callers are queued, the head channel is
sent `nil` to promote it, no intervening `idle` state is ever observable
(the post-round state remains `offering`), and the completing round's result
reaches only its own batch: a queued channel outside the batch receives
nothing except the head's `nil` promotion. -/
theorem C4_completion_transition (s : SigState) (batch : List ChanId) (chC : ChanId)
    (o : RoundOracle) (r : RoundResult)
    (h : negotiateBody s batch chC o = some r) (hnc : r.conceded = false) :
    (s.waitPending ++ o.arrivals = [] → r.st.state = .idle) ∧
    (∀ hd tl, s.waitPending ++ o.arrivals = hd :: tl →
      r.st.state = .offering ∧ r.deliveries.head? = some (hd, none) ∧
      (∀ c ∈ s.waitPending ++ o.arrivals, c ∉ batch →
        r.deliveries.filter (fun p => p.1 == c) =
          if c = hd then [(hd, none)] else [])) := by
  rcases negotiateBody_shape s batch chC o r h with ⟨hcon, _⟩ | ⟨_, hcase⟩
  · rw [hnc] at hcon
    exact absurd hcon (by simp)
  · rcases hcase with ⟨hpf, hst, _, hdel⟩ | ⟨hd, tl, hpf, hst, _, hdel⟩
    · refine ⟨fun _ => hst, fun hd tl hcons => ?_⟩
      rw [hpf] at hcons
      exact absurd hcons (by simp)
    · refine ⟨fun hnil => ?_, fun hd' tl' hcons => ?_⟩
      · rw [hpf] at hnil
        exact absurd hnil (by simp)
      · rw [hpf] at hcons
        injection hcons with hhd htl
        refine ⟨hst, by rw [hdel, hhd]; rfl, ?_⟩
        intro c hcmem hcnb
        rw [hdel, hhd, List.filter_cons]
        have hflt := filter_pair_not_mem batch r.ret c hcnb
        by_cases hceq : c = hd'
        · subst hceq
          simp [hflt]
        · have hskip : (((hd', none) : ChanId × Option Err).1 == c) = false := by
            simp only [beq_eq_false_iff_ne, ne_eq]
            exact fun hh => hceq hh.symm
          rw [hskip]
          simp [hflt, hceq]

theorem C4_witness :
    r1ExW.st.state = .offering ∧ r1ExW.deliveries.head? = some (7, none) ∧
    r1ExW.deliveries.filter (fun p => p.1 == 7) =
      if (7 : ChanId) = 7 then [(7, none)] else [] := by
  have h := (C4_completion_transition sIdle0 [] 8 oH1 r1ExW rfl rfl).2 7 [] rfl
  exact ⟨h.1, h.2.1, h.2.2 7 (by decide) (by decide)⟩

/-- C5: a `CandidateAdd` call with zero arguments makes the receiving signaler
discard its accumulated local candidates (the drain forwards nothing to the
remote peer and consumes everything up to the sentinel), deliver an error with
message `"peer rejected answer"` to every channel queued in `waitSimple`, and
transition back to `idle` (or promote the head of the pending batch with a
`nil` send). -/
theorem C5_empty_batch_reject (s : SigState) (o : CandAddOracle)
    (eff : CandAddEffects) (pre : List Candidate)
    (hwf : s.candidates ++ o.inputs = pre ++ [""]) (hpre : "" ∉ pre)
    (h : (candidateAdd s o []).2 = some eff) :
    eff.forwarded = [] ∧ eff.dropped.flatten = pre ++ [""] ∧
    eff.st.candidates = [] ∧
    (∀ ch ∈ s.waitSimple,
      (ch, some (Err.simple "peer rejected answer")) ∈ eff.deliveries) ∧
    (s.waitPending = [] → eff.st.state = .idle) ∧
    (∀ hd tl, s.waitPending = hd :: tl →
      (hd, none) ∈ eff.deliveries ∧ eff.st.state = s.state) := by
  rw [candidateAdd] at h
  simp only [List.isEmpty_nil, if_true] at h
  match hdr : candidateProcessDiscardRun o.senderSched s.candidates o.inputs with
  | none => rw [hdr] at h; exact absurd h (by simp)
  | some (d, e, bs, b2, i2) =>
    rw [hdr] at h
    simp only [Option.some.injEq] at h
    subst h
    obtain ⟨hd1, he1⟩ :=
      candidateProcessDiscardRun_spec o.senderSched s.candidates o.inputs d e bs b2 i2 hdr
    subst hd1
    rw [candidateProcessDiscardRun] at hdr
    obtain ⟨hfl, hb2, hi2, _⟩ :=
      candidateProcessRun_drain o.senderSched _ s.candidates o.inputs pre e bs b2 i2
        hwf hpre hdr
    refine ⟨rfl, hfl, ?_, ?_, ?_, ?_⟩
    · show (finishAnswer { s with candidates := b2 }
          (some (Err.simple "peer rejected answer"))).1.candidates = []
      rw [finishAnswer]
      simp only
      rw [finish_candidates]
      exact hb2
    · intro ch hch
      show (ch, some (Err.simple "peer rejected answer")) ∈
        (finishAnswer { s with candidates := b2 }
          (some (Err.simple "peer rejected answer"))).2
      rw [finishAnswer]
      simp only
      exact List.mem_append_left _ (List.mem_map.mpr ⟨ch, hch, rfl⟩)
    · intro hwp
      show (finishAnswer { s with candidates := b2 }
          (some (Err.simple "peer rejected answer"))).1.state = .idle
      rw [finishAnswer]
      simp only
      simp [finish, hwp]
    · intro hd0 tl hwp
      constructor
      · show (hd0, (none : Option Err)) ∈
          (finishAnswer { s with candidates := b2 }
            (some (Err.simple "peer rejected answer"))).2
        rw [finishAnswer]
        simp only
        refine List.mem_append_right _ ?_
        simp [finish, hwp]
      · show (finishAnswer { s with candidates := b2 }
            (some (Err.simple "peer rejected answer"))).1.state = s.state
        rw [finishAnswer]
        simp only
        simp [finish, hwp]

theorem C5_witness :
    effC5W.forwarded = [] ∧ effC5W.dropped.flatten = ["x"] ++ [""] ∧
    effC5W.st.candidates = [] ∧
    ((5, some (Err.simple "peer rejected answer")) ∈ effC5W.deliveries ∧
      effC5W.st.state = .idle) := by
  have h := C5_empty_batch_reject sC5W oC5W effC5W ["x"] rfl (by decide) rfl
  exact ⟨h.1, h.2.1, h.2.2.1, h.2.2.2.1 5 (by decide), h.2.2.2.2.1 rfl⟩

/-- C10: `CandidateAdd` invoked with zero candidates always returns `nil` to
its remote caller, whatever the signaler's state; the
`"peer rejected answer"` error produced by the empty-batch signal reaches only
`waitSimple` waiters, never the return value of the call. -/
theorem C10_zero_candidates_nil (s : SigState) (o : CandAddOracle) :
    (candidateAdd s o []).1 = some none ∧
    (∀ eff, (candidateAdd s o []).2 = some eff →
      ∀ p ∈ eff.deliveries,
        p.2 = some (Err.simple "peer rejected answer") → p.1 ∈ s.waitSimple) := by
  refine ⟨rfl, ?_⟩
  intro eff heff p hp hval
  rw [candidateAdd] at heff
  simp only [List.isEmpty_nil, if_true] at heff
  match hdr : candidateProcessDiscardRun o.senderSched s.candidates o.inputs with
  | none => rw [hdr] at heff; exact absurd heff (by simp)
  | some (d, e, bs, b2, i2) =>
    rw [hdr] at heff
    simp only [Option.some.injEq] at heff
    subst heff
    rw [finishAnswer] at hp
    simp only at hp
    rcases List.mem_append.mp hp with hmem | hmem
    · obtain ⟨ch, hch, hpe⟩ := List.mem_map.mp hmem
      rw [← hpe]
      exact hch
    · exfalso
      have hnone := finish_deliv_none _ p hmem
      rw [hval] at hnone
      exact absurd hnone (by simp)

theorem C10_witness :
    (candidateAdd sC5W oC5W []).1 = some none ∧
    ((5 : ChanId) ∈ sC5W.waitSimple) :=
  ⟨(C10_zero_candidates_nil sC5W oC5W).1,
   (C10_zero_candidates_nil sC5W oC5W).2 effC5W rfl
     (5, some (Err.simple "peer rejected answer")) (by decide) rfl⟩

/-- C6: if an error occurs during the candidate-exchange phase of a round
(setting the remote answer description, or forwarding candidates), the round
leaves no stale candidate behind: what was not already forwarded before the
error is drained and dropped (never forwarded) before `Negotiate` returns, so
the buffer is empty, no gathering event of the round is left pending, and the
forwards before the error followed by the drops account for the whole
gathering stream. -/
theorem C6_error_discard (s : SigState) (batch : List ChanId) (chC : ChanId)
    (o : RoundOracle) (r : RoundResult) (pre : List Candidate)
    (dsc asc : SessionDescription)
    (hc : o.createOffer = .ok dsc) (ha : o.answer = .ok asc)
    (hsl : o.setLocal = none)
    (hwf : s.candidates ++ o.inputs = pre ++ [""]) (hpre : "" ∉ pre)
    (h : negotiateBody s batch chC o = some r) (herr : r.ret.isSome) :
    r.st.candidates = [] ∧ r.remainingInputs = [] ∧
    r.forwarded.flatten ++ r.dropped.flatten = pre ++ [""] := by
  rw [negotiateBody] at h
  rw [hc, ha, hsl] at h
  simp only at h
  match hsr : o.setRemote with
  | some e =>
    rw [hsr] at h
    simp only at h
    match hdr : candidateProcessDiscardRun o.sched s.candidates o.inputs with
    | none => rw [hdr] at h; exact absurd h (by simp)
    | some (d2, e2, bs, b2, i2) =>
      rw [hdr] at h
      simp only [Option.some.injEq] at h
      subst h
      obtain ⟨hd2, he2⟩ :=
        candidateProcessDiscardRun_spec o.sched s.candidates o.inputs d2 e2 bs b2 i2 hdr
      subst hd2
      rw [candidateProcessDiscardRun] at hdr
      obtain ⟨hfl, hb2, hi2, _⟩ :=
        candidateProcessRun_drain o.sched _ s.candidates o.inputs pre e2 bs b2 i2
          hwf hpre hdr
      refine ⟨?_, hi2, by simpa using hfl⟩
      show (finish _).1.candidates = []
      rw [finish_candidates]
      exact hb2
  | none =>
    rw [hsr] at h
    simp only at h
    match hrun : candidateProcessRun o.sched o.fnRes s.candidates o.inputs with
    | none => rw [hrun] at h; exact absurd h (by simp)
    | some (done, e2, bs, b2, i2) =>
      rw [hrun] at h
      simp only at h
      cases done with
      | true =>
        rw [if_pos rfl] at h
        simp only [Option.some.injEq] at h
        subst h
        obtain ⟨hfl, hb2, hi2, _⟩ :=
          candidateProcessRun_drain o.sched o.fnRes s.candidates o.inputs pre e2 bs b2 i2
            hwf hpre hrun
        refine ⟨?_, hi2, by simpa using hfl⟩
        show (finish _).1.candidates = []
        rw [finish_candidates]
        exact hb2
      | false =>
        rw [if_neg (by simp)] at h
        match hdr2 : candidateProcessDiscardRun o.sched2 b2 i2 with
        | none => rw [hdr2] at h; exact absurd h (by simp)
        | some (d3, e3, bs2, b3, i3) =>
          rw [hdr2] at h
          simp only [Option.some.injEq] at h
          subst h
          obtain ⟨hd3, he3⟩ :=
            candidateProcessDiscardRun_spec o.sched2 b2 i2 d3 e3 bs2 b3 i3 hdr2
          subst hd3
          have hacc :=
            candidateProcessRun_flatten o.sched o.fnRes s.candidates o.inputs false e2 bs
              b2 i2 hrun
          rw [hwf] at hacc
          rw [List.append_assoc] at hacc
          have hne : b2 ++ i2 ≠ [] := by
            intro hnil
            obtain ⟨hb2n, hi2n⟩ := List.append_eq_nil.mp hnil
            subst hb2n; subst hi2n
            rw [candidateProcessDiscardRun, candidateProcessRun_nil] at hdr2
            exact absurd hdr2 (by simp)
          obtain ⟨q, hq, hqn⟩ := suffix_wf hacc hpre hne
          rw [candidateProcessDiscardRun] at hdr2
          obtain ⟨hfl2, hb3, hi3, _⟩ :=
            candidateProcessRun_drain o.sched2 _ b2 i2 q e3 bs2 b3 i3 hq hqn hdr2
          refine ⟨?_, hi3, ?_⟩
          · show (finish _).1.candidates = []
            rw [finish_candidates]
            exact hb3
          · show bs.flatten ++ bs2.flatten = pre ++ [""]
            rw [hfl2, ← hq]
            exact hacc

theorem C6_witness :
    rC6W.st.candidates = [] ∧ rC6W.remainingInputs = [] ∧
    rC6W.forwarded.flatten ++ rC6W.dropped.flatten = ["y"] ++ [""] :=
  C6_error_discard sIdle0 [] 8 oC6W rC6W ["y"] ⟨1, "o"⟩ ⟨2, "a"⟩
    rfl rfl rfl rfl (by decide) rfl rfl

/-- C8 counterexample: two concurrent callers on an idle signaler with no
conflicting remote activity and both rounds succeeding.  Caller 2 arrives
while round 1 is active, so it is promoted into its own round: `set.Answer`
is executed twice in total (once per round), refuting that exactly one of the
N callers executes the offer/answer exchange. -/
theorem C8_counterexample :
    ((twoCallerRun sIdle0 7 100 101 oH1 oH2).map
      fun p => p.1.answerCalls + p.2.answerCalls) = some 2 ∧ (2 : Nat) ≠ 1 :=
  ⟨rfl, by decide⟩

/-- C8 (amended): with two concurrent callers on an idle signaler, the callers
resolve in two successive rounds; each round's offer/answer exchange is
executed by exactly one caller (`set.Answer` is invoked once per round), and
the queued caller is promoted with a `nil` send — it receives its own round's
result, not the first round's. -/
theorem C8_amended_per_round (s0 : SigState) (ch2 chC1 chC2 : ChanId)
    (o1 o2 : RoundOracle) (r1 r2 : RoundResult) (d1 d2 : SessionDescription)
    (h : twoCallerRun s0 ch2 chC1 chC2 o1 o2 = some (r1, r2))
    (hc1 : o1.createOffer = .ok d1) (hc2 : o2.createOffer = .ok d2) :
    r1.answerCalls = 1 ∧ r2.answerCalls = 1 ∧
    (s0.waitPending = [] → o1.arrivals = [ch2] →
      r1.deliveries.head? = some (ch2, none)) := by
  rw [twoCallerRun] at h
  split at h
  · match hb1 : negotiateBody s0 [] chC1 o1 with
    | none => rw [hb1] at h; exact absurd h (by simp)
    | some r1' =>
      rw [hb1] at h
      simp only at h
      match hw : negotiateWake r1'.st ch2 chC2 o2 with
      | none => rw [hw] at h; exact absurd h (by simp)
      | some r2' =>
        rw [hw] at h
        simp only [Option.some.injEq, Prod.mk.injEq] at h
        obtain ⟨h1, h2⟩ := h
        subst h1; subst h2
        rw [negotiateWake] at hw
        split at hw
        · rename_i hhead
          refine ⟨negotiateBody_answerCalls s0 [] chC1 o1 r1' d1 hc1 hb1,
                  negotiateBody_answerCalls _ _ chC2 o2 r2' d2 hc2 hw, ?_⟩
          intro hp ha
          rcases negotiateBody_shape s0 [] chC1 o1 r1' hb1 with
            ⟨_, _, _, _, hwp⟩ | ⟨_, hcase⟩
          · rw [hwp] at hhead
            exact absurd hhead (by simp)
          · rcases hcase with ⟨hpf, _, _, _⟩ | ⟨hd, tl, hpf, _, _, hdel⟩
            · rw [hp, ha] at hpf
              exact absurd hpf (by simp)
            · rw [hp, ha] at hpf
              simp only [List.nil_append] at hpf
              injection hpf with hhd htl
              rw [hdel, ← hhd]
              rfl
        · exact absurd hw (by simp)
  · exact absurd h (by simp)

theorem C8_witness :
    r1ExW.answerCalls = 1 ∧ r2ExW.answerCalls = 1 ∧
    r1ExW.deliveries.head? = some (7, none) := by
  have h := C8_amended_per_round sIdle0 7 100 101 oH1 oH2 r1ExW r2ExW
    ⟨1, "o1"⟩ ⟨1, "o2"⟩ rfl rfl rfl
  exact ⟨h.1, h.2.1, h.2.2 rfl rfl⟩

end BlitzWebrtc
